import Mathlib

/-!
Verification of the `transactor` payments engine.

This file shallowly embeds the core of the repository: the `Amount`
fixed-point money type (`src/amount.rs`), the transaction model
(`src/transaction.rs` / `src/account.rs`), and the account state machine
`Account::transact` (`src/account.rs`).

Modelling notes:
- `Amount` wraps an `i64` holding the value scaled by 10^4.  All `Amount`
  arithmetic in the program is plain `i64` addition/subtraction; in debug
  builds Rust panics on overflow rather than wrapping, so non-panicking
  executions compute exact integer results.  We model the scaled integer
  as `Int` and its arithmetic exactly.
- `HashMap<TransactionId, BalanceChange>` is modelled as an association
  list with first-match lookup; `insert` conses (the program only inserts
  after `contains_key` returned false) and `remove` drops every pair with
  the key, so lookup semantics coincide with the hash map's.
- `HashSet<TransactionId>` is modelled as a list; `insert` adds the
  element only when absent (hash-set semantics) and `remove` filters it
  out, returning whether it was present.
- `Account::transact` takes `&mut self` and returns
  `Result<(), TransactionError>`; we model it as a function returning the
  result paired with the final account state, so that "an error leaves
  the account unchanged" is a provable property rather than one baked
  into the embedding.
-/

/-- Scaled fixed-point money value: the `i64` inside `Amount`
(`src/amount.rs`), holding the real value times 10^4. -/
abbrev Amount := Int

/-- `type TransactionId = u32` (`src/transaction.rs`). -/
abbrev TransactionId := Nat

/-- `enum ChangeKind { Deposit, Withdrawal }` (`src/transaction.rs`). -/
inductive ChangeKind
  | Deposit
  | Withdrawal
deriving DecidableEq

/-- `struct BalanceChange { kind, amount }` (`src/transaction.rs`). -/
structure BalanceChange where
  kind : ChangeKind
  amount : Amount
deriving DecidableEq

/-- The three dispute-related transaction kinds dispatched in
`Account::transact` (`src/account.rs`): initiating a dispute, resolving
it, and charging it back. -/
inductive DisputeKind
  | Initiate
  | Resolve
  | Chargeback
deriving DecidableEq

/-- `enum Transaction` as consumed by `Account::transact`
(`src/account.rs`): a balance change (deposit/withdrawal) or a
dispute-related transaction. -/
inductive Transaction
  | Change (tx_id : TransactionId) (change : BalanceChange)
  | Dispute (kind : DisputeKind) (tx_id : TransactionId)
deriving DecidableEq

/-- `Transaction::deposit` convenience constructor (`src/transaction.rs`). -/
def Transaction.deposit (tx_id : TransactionId) (amount : Amount) : Transaction :=
  .Change tx_id ⟨.Deposit, amount⟩

/-- `Transaction::withdrawal` convenience constructor (`src/transaction.rs`). -/
def Transaction.withdrawal (tx_id : TransactionId) (amount : Amount) : Transaction :=
  .Change tx_id ⟨.Withdrawal, amount⟩

/-- `enum TransactionError` (`src/account.rs`), spellings kept. -/
inductive TransactionError
  | AccountFrozen
  | InsufficentFunds (current requested : Amount)
  | InvalidDispute
  | UndisputedResolve
  | UndisputedChargback
  | DuplicateTransactionId (id : TransactionId)
deriving DecidableEq

/-- The account's transaction history: `HashMap<TransactionId, BalanceChange>`
as an association list. -/
abbrev History := List (TransactionId × BalanceChange)

/-- `HashMap::get`: first binding of the key, if any. -/
def histGet : History → TransactionId → Option BalanceChange
  | [], _ => none
  | (k, v) :: rest, t => if k = t then some v else histGet rest t

/-- `HashMap::contains_key`. -/
def histContains (h : History) (t : TransactionId) : Bool :=
  (histGet h t).isSome

/-- `HashMap::insert`; only ever called after `contains_key` returned
false, so consing has the hash map's lookup semantics. -/
def histInsert (h : History) (t : TransactionId) (c : BalanceChange) : History :=
  (t, c) :: h

/-- `HashMap::remove`: drop every binding of the key. -/
def histRemove (h : History) (t : TransactionId) : History :=
  h.filter (fun p => p.1 ≠ t)

/-- `HashSet::insert`: add the element only when absent. -/
def setInsert (s : List TransactionId) (t : TransactionId) : List TransactionId :=
  if t ∈ s then s else t :: s

/-- `HashSet::contains` / the boolean result of `HashSet::remove`. -/
def setContains (s : List TransactionId) (t : TransactionId) : Bool :=
  decide (t ∈ s)

/-- `HashSet::remove`: drop the element. -/
def setRemove (s : List TransactionId) (t : TransactionId) : List TransactionId :=
  s.filter (fun x => x ≠ t)

/-- `struct Account` (`src/account.rs`). -/
structure Account where
  balance : Amount
  held : Amount
  frozen : Bool
  history : History
  disputed : List TransactionId
deriving DecidableEq

/-- `Account::default()`: zero balances, not frozen, empty history and
disputed set. -/
def Account.default : Account :=
  ⟨0, 0, false, [], []⟩

/-- `Account::total`: `self.balance + self.held` (`src/account.rs`). -/
def Account.total (acc : Account) : Amount :=
  acc.balance + acc.held

/-- `Account::transact` (`src/account.rs`), returned result paired with
the final account state (the Rust method mutates `&mut self`). -/
def Account.transact (acc : Account) (tx : Transaction) :
    Except TransactionError Unit × Account :=
  match tx with
  | .Change tx_id change =>
    if histContains acc.history tx_id then
      (.error (.DuplicateTransactionId tx_id), acc)
    else
      match change.kind with
      | .Deposit =>
        (.ok (), { acc with
          balance := acc.balance + change.amount,
          history := histInsert acc.history tx_id change })
      | .Withdrawal =>
        if acc.frozen then
          (.error .AccountFrozen, acc)
        else if acc.balance ≥ change.amount then
          (.ok (), { acc with
            balance := acc.balance - change.amount,
            history := histInsert acc.history tx_id change })
        else
          (.error (.InsufficentFunds acc.balance change.amount), acc)
  | .Dispute kind tx_id =>
    match kind with
    | .Initiate =>
      match histGet acc.history tx_id with
      | some ⟨.Deposit, amount⟩ =>
        (.ok (), { acc with
          balance := acc.balance - amount,
          held := acc.held + amount,
          disputed := setInsert acc.disputed tx_id })
      | _ => (.error .InvalidDispute, acc)
    | .Resolve =>
      if setContains acc.disputed tx_id then
        let acc1 := { acc with disputed := setRemove acc.disputed tx_id }
        match histGet acc1.history tx_id with
        | some ⟨.Deposit, amount⟩ =>
          (.ok (), { acc1 with
            balance := acc1.balance + amount,
            held := acc1.held - amount })
        | _ => (.ok (), acc1)
      else
        (.error .UndisputedResolve, acc)
    | .Chargeback =>
      if setContains acc.disputed tx_id then
        let acc1 := { acc with disputed := setRemove acc.disputed tx_id }
        match histGet acc1.history tx_id with
        | some ⟨.Deposit, amount⟩ =>
          (.ok (), { acc1 with
            held := acc1.held - amount,
            frozen := true,
            history := histRemove acc1.history tx_id })
        | _ => (.ok (), acc1)
      else
        (.error .UndisputedChargback, acc)

/-- One step of the processing driver (`process_transaction_source` in
`src/main.rs`): the post-transaction state is kept whether or not the
transaction reported an error. -/
def applyTx (acc : Account) (tx : Transaction) : Account :=
  (acc.transact tx).2

/-- Replay of a transaction list by the driver. -/
def runTxs (acc : Account) : List Transaction → Account
  | [] => acc
  | tx :: rest => runTxs (applyTx acc tx) rest

-- Sanity checks against the repository's own tests (src/test.rs),
-- amounts scaled by 10^4.
example :
    (runTxs Account.default
      [Transaction.deposit 0 1000000, Transaction.withdrawal 1 555000]).total
      = 445000 := by decide

example :
    (runTxs Account.default
      [Transaction.deposit 0 1000000, .Dispute .Initiate 0,
       .Dispute .Resolve 0]).balance = 1000000 := by decide

example :
    (runTxs Account.default
      [Transaction.deposit 0 1000000, .Dispute .Initiate 0,
       .Dispute .Chargeback 0]).frozen = true := by decide

example :
    ((runTxs Account.default
      [Transaction.deposit 0 1000000, .Dispute .Initiate 0,
       .Dispute .Chargeback 0]).transact (.Dispute .Chargeback 0)).1
      = .error .UndisputedChargback := rfl

/-- Removing an id that is not in the set leaves the set unchanged. -/
theorem setRemove_not_mem (s : List TransactionId) (t : TransactionId) (h : t ∉ s) :
    setRemove s t = s := by
  unfold setRemove
  apply List.filter_eq_self.mpr
  intro x hx
  simp only [ne_eq, decide_eq_true_eq]
  exact fun he => h (he ▸ hx)

/-- Removing an id from a history makes lookup of that id fail. -/
theorem histGet_remove_self (h : History) (t : TransactionId) :
    histGet (histRemove h t) t = none := by
  induction h with
  | nil => rfl
  | cons p rest ih =>
    by_cases hk : p.1 = t
    · simpa [histRemove, hk] using ih
    · simpa [histRemove, histGet, hk] using ih

/-- Removing one id from a history does not affect lookups of other ids. -/
theorem histGet_remove_ne (h : History) (t t' : TransactionId) (hne : t' ≠ t) :
    histGet (histRemove h t) t' = histGet h t' := by
  induction h with
  | nil => rfl
  | cons p rest ih =>
    by_cases hk : p.1 = t
    · simpa [histRemove, List.filter_cons, histGet, hk, Ne.symm hne] using ih
    · by_cases hk' : p.1 = t'
      · simp [histRemove, List.filter_cons, histGet, hk, hk', hne]
      · simpa [histRemove, List.filter_cons, histGet, hk, hk'] using ih

/-- Lookup after insertion: the inserted id is found, others unchanged. -/
theorem histGet_insert (h : History) (t t' : TransactionId) (c : BalanceChange) :
    histGet (histInsert h t c) t' = if t = t' then some c else histGet h t' := by
  simp [histInsert, histGet]

instance {ε α : Type} [DecidableEq ε] [DecidableEq α] : DecidableEq (Except ε α) := fun x y =>
  match x, y with
  | .ok a, .ok b => decidable_of_iff (a = b) (by simp)
  | .ok _, .error _ => isFalse (fun h => Except.noConfusion h)
  | .error _, .ok _ => isFalse (fun h => Except.noConfusion h)
  | .error a, .error b => decidable_of_iff (a = b) (by simp)

/-- The transaction id carried by a transaction. -/
def Transaction.txId : Transaction → TransactionId
  | .Change t _ => t
  | .Dispute _ t => t

/-- Whether a transaction is a balance change (Deposit or Withdrawal). -/
def isChange : Transaction → Bool
  | .Change _ _ => true
  | .Dispute _ _ => false

/-- Sum of the amounts of all Deposit transactions in a list. -/
def depositSum : List Transaction → Int
  | [] => 0
  | .Change _ ⟨.Deposit, a⟩ :: rest => a + depositSum rest
  | _ :: rest => depositSum rest

/-- Sum of the amounts of exactly those Withdrawal transactions that
succeed when the list is replayed from `acc` by the driver. -/
def okWithdrawalSum (acc : Account) : List Transaction → Int
  | [] => 0
  | tx :: rest =>
    (match tx, (acc.transact tx).1 with
      | .Change _ ⟨.Withdrawal, a⟩, .ok _ => a
      | _, _ => 0) + okWithdrawalSum (applyTx acc tx) rest

/-- Insertion makes the inserted id present; other ids keep their
membership status. -/
theorem histContains_insert (h : History) (t t' : TransactionId) (c : BalanceChange) :
    histContains (histInsert h t c) t' = (decide (t = t') || histContains h t') := by
  by_cases ht : t = t' <;> simp [histContains, histGet_insert, ht]

/-- Claim C2: whenever `Account::transact` returns an error — any
`TransactionError` variant — the account state it leaves behind is
exactly the state it started from. -/
theorem transact_error_unchanged (acc : Account) (tx : Transaction)
    (e : TransactionError) (acc' : Account)
    (h : acc.transact tx = (.error e, acc')) : acc' = acc := by
  cases tx with
  | Change tx_id change =>
    cases change with
    | mk kind amount =>
      cases kind <;>
        simp only [Account.transact] at h <;>
        (repeat' split at h) <;> simp_all
  | Dispute kind tx_id =>
    cases kind <;>
      simp only [Account.transact] at h <;>
      (repeat' split at h) <;> simp_all

/-- Witness for C2 at a concrete input: an insufficient-funds withdrawal
on the fresh account errors and leaves the account unchanged. -/
theorem transact_error_unchanged_witness :
    Account.default.transact (Transaction.withdrawal 0 5)
        = (.error (.InsufficentFunds 0 5), Account.default)
      ∧ Account.default = Account.default :=
  ⟨by decide, transact_error_unchanged Account.default (Transaction.withdrawal 0 5)
      (.InsufficentFunds 0 5) Account.default (by decide)⟩

/-- Claim C8: a Deposit or Withdrawal whose transaction id is already in
the account's history fails with `DuplicateTransactionId` and leaves the
account exactly as it was. -/
theorem duplicate_id_rejected (acc : Account) (t : TransactionId) (c : BalanceChange)
    (h : histContains acc.history t = true) :
    acc.transact (.Change t c) = (.error (.DuplicateTransactionId t), acc) := by
  simp [Account.transact, h]

/-- Witness for C8 at a concrete input: re-depositing under an id already
in history is rejected without change. -/
theorem duplicate_id_rejected_witness :
    histContains (Account.mk 100 0 false [(0, ⟨.Deposit, 100⟩)] []).history 0 = true ∧
    (Account.mk 100 0 false [(0, ⟨.Deposit, 100⟩)] []).transact (.Change 0 ⟨.Deposit, 5⟩)
      = (.error (.DuplicateTransactionId 0), Account.mk 100 0 false [(0, ⟨.Deposit, 100⟩)] []) :=
  ⟨by decide, duplicate_id_rejected _ 0 ⟨.Deposit, 5⟩ (by decide)⟩

/-- Counterexample to Claim C1 as stated: after depositing 100 under id 0
and disputing id 0 (so 0 is in the disputed set), a second Dispute for
id 0 does NOT fail with `InvalidDispute`: it succeeds and moves the
amount from `balance` to `held` again, driving `balance` to −100. -/
theorem dispute_already_disputed_counterexample :
    (runTxs Account.default [Transaction.deposit 0 100, .Dispute .Initiate 0]).disputed = [0]
      ∧ (runTxs Account.default [Transaction.deposit 0 100, .Dispute .Initiate 0]).transact
          (.Dispute .Initiate 0)
        = (.ok (), ⟨-100, 200, false, [(0, ⟨.Deposit, 100⟩)], [0]⟩) := by
  decide

/-- Claim C1 (amended): `Account::transact` never checks the disputed set
when initiating a dispute.  For an id already in the disputed set whose
history entry is a Deposit of amount `a`, the Dispute succeeds again,
subtracting `a` from `balance` and adding `a` to `held`, with `frozen`,
`history` and the disputed set unchanged. -/
theorem dispute_already_disputed (acc : Account) (t : TransactionId) (a : Amount)
    (hmem : t ∈ acc.disputed)
    (hh : histGet acc.history t = some ⟨.Deposit, a⟩) :
    acc.transact (.Dispute .Initiate t)
      = (.ok (), { acc with balance := acc.balance - a, held := acc.held + a }) := by
  simp [Account.transact, hh, setInsert, hmem]

/-- Witness for amended C1 at a concrete input: double-disputing deposit
id 0 of amount 100 succeeds and double-debits the balance. -/
theorem dispute_already_disputed_witness :
    (0 : TransactionId) ∈ (Account.mk 0 100 false [(0, ⟨.Deposit, 100⟩)] [0]).disputed
      ∧ (Account.mk 0 100 false [(0, ⟨.Deposit, 100⟩)] [0]).transact (.Dispute .Initiate 0)
        = (.ok (), Account.mk (-100) 200 false [(0, ⟨.Deposit, 100⟩)] [0]) :=
  ⟨by decide, dispute_already_disputed _ 0 100 (by decide) (by decide)⟩

/-- Claim C5: for a deposit of amount `a` in history under an undisputed
id `t`, Dispute(t) then Resolve(t) both succeed and return the account
exactly to its pre-dispute state — in particular `balance`, `held`, and
`frozen` are restored. -/
theorem dispute_resolve_restores (acc : Account) (t : TransactionId) (a : Amount)
    (hh : histGet acc.history t = some ⟨.Deposit, a⟩)
    (hnd : t ∉ acc.disputed) :
    ∃ mid : Account,
      acc.transact (.Dispute .Initiate t) = (.ok (), mid)
        ∧ mid.transact (.Dispute .Resolve t) = (.ok (), acc) := by
  have h1 : acc.transact (.Dispute .Initiate t)
      = (.ok (), ⟨acc.balance - a, acc.held + a, acc.frozen, acc.history,
                  t :: acc.disputed⟩) := by
    simp [Account.transact, hh, setInsert, hnd]
  refine ⟨_, h1, ?_⟩
  have hset : setContains (t :: acc.disputed) t = true := by simp [setContains]
  have hrem : setRemove (t :: acc.disputed) t = acc.disputed := by
    have := setRemove_not_mem acc.disputed t hnd
    simp [setRemove] at this ⊢
    exact this
  simp only [Account.transact, hset, hrem, hh, if_true]
  cases acc with
  | mk b h f hist d => simp

/-- Witness for C5 at a concrete input: an account holding a deposit of
100 under id 0 is restored by Dispute(0); Resolve(0). -/
theorem dispute_resolve_restores_witness :
    ∃ mid : Account,
      (Account.mk 100 0 false [(0, ⟨.Deposit, 100⟩)] []).transact (.Dispute .Initiate 0)
          = (.ok (), mid)
        ∧ mid.transact (.Dispute .Resolve 0)
          = (.ok (), Account.mk 100 0 false [(0, ⟨.Deposit, 100⟩)] []) :=
  dispute_resolve_restores _ 0 100 (by decide) (by decide)

/-- Counterexample to Claim C6 as stated: chargeback removes the id from
history, so a later Deposit may reuse the freed id, after which a
subsequent Dispute on that id succeeds rather than returning an error.
The run deposits 100 under id 0, disputes and charges it back (all
succeeding), deposits 50 under the same id 0 (succeeds), and then
Dispute(0) succeeds again. -/
theorem chargeback_redispute_counterexample :
    Account.default.transact (Transaction.deposit 0 100)
        = (.ok (), ⟨100, 0, false, [(0, ⟨.Deposit, 100⟩)], []⟩)
      ∧ (Account.mk 100 0 false [(0, ⟨.Deposit, 100⟩)] []).transact (.Dispute .Initiate 0)
        = (.ok (), ⟨0, 100, false, [(0, ⟨.Deposit, 100⟩)], [0]⟩)
      ∧ (Account.mk 0 100 false [(0, ⟨.Deposit, 100⟩)] [0]).transact (.Dispute .Chargeback 0)
        = (.ok (), ⟨0, 0, true, [], []⟩)
      ∧ (Account.mk 0 0 true [] []).transact (Transaction.deposit 0 50)
        = (.ok (), ⟨50, 0, true, [(0, ⟨.Deposit, 50⟩)], []⟩)
      ∧ (Account.mk 50 0 true [(0, ⟨.Deposit, 50⟩)] []).transact (.Dispute .Initiate 0)
        = (.ok (), ⟨0, 50, true, [(0, ⟨.Deposit, 50⟩)], [0]⟩) := by
  decide

/-- Claim C6 (amended): for a deposit of amount `a` in history under an
undisputed id `t`, Dispute(t) then Chargeback(t) both succeed; the
chargeback sets `frozen`, decreases `held` by `a` from its post-dispute
value, and removes `t` from history and from the disputed set.  On the
resulting account an immediately following Chargeback(t) fails with
`UndisputedChargback` and an immediately following Dispute(t) fails with
`InvalidDispute` (a later Deposit may reuse the freed id and re-enable
disputes, so this does not extend to every subsequent transaction). -/
theorem dispute_chargeback_effects (acc : Account) (t : TransactionId) (a : Amount)
    (hh : histGet acc.history t = some ⟨.Deposit, a⟩)
    (hnd : t ∉ acc.disputed) :
    ∃ mid fin : Account,
      acc.transact (.Dispute .Initiate t) = (.ok (), mid)
        ∧ mid.transact (.Dispute .Chargeback t) = (.ok (), fin)
        ∧ fin.frozen = true
        ∧ fin.held = mid.held - a
        ∧ histGet fin.history t = none
        ∧ t ∉ fin.disputed
        ∧ fin.transact (.Dispute .Chargeback t) = (.error .UndisputedChargback, fin)
        ∧ fin.transact (.Dispute .Initiate t) = (.error .InvalidDispute, fin) := by
  have h1 : acc.transact (.Dispute .Initiate t)
      = (.ok (), ⟨acc.balance - a, acc.held + a, acc.frozen, acc.history,
                  t :: acc.disputed⟩) := by
    simp [Account.transact, hh, setInsert, hnd]
  have hset : setContains (t :: acc.disputed) t = true := by simp [setContains]
  have hrem : setRemove (t :: acc.disputed) t = acc.disputed := by
    have := setRemove_not_mem acc.disputed t hnd
    simp [setRemove] at this ⊢
    exact this
  have h2 : (Account.mk (acc.balance - a) (acc.held + a) acc.frozen acc.history
        (t :: acc.disputed)).transact (.Dispute .Chargeback t)
      = (.ok (), ⟨acc.balance - a, acc.held + a - a, true,
                  histRemove acc.history t, acc.disputed⟩) := by
    simp only [Account.transact, hset, hrem, hh, if_true]
  refine ⟨_, _, h1, h2, rfl, rfl, histGet_remove_self _ _, hnd, ?_, ?_⟩
  · have : setContains acc.disputed t = false := by
      simp [setContains]
      exact hnd
    simp [Account.transact, this]
  · simp [Account.transact, histGet_remove_self]

/-- Witness for amended C6 at a concrete input: deposit 100 under id 0,
dispute, charge back; the follow-up Chargeback and Dispute both fail. -/
theorem dispute_chargeback_effects_witness :
    ∃ mid fin : Account,
      (Account.mk 100 0 false [(0, ⟨.Deposit, 100⟩)] []).transact (.Dispute .Initiate 0)
          = (.ok (), mid)
        ∧ mid.transact (.Dispute .Chargeback 0) = (.ok (), fin)
        ∧ fin.frozen = true
        ∧ fin.held = mid.held - 100
        ∧ histGet fin.history 0 = none
        ∧ 0 ∉ fin.disputed
        ∧ fin.transact (.Dispute .Chargeback 0) = (.error .UndisputedChargback, fin)
        ∧ fin.transact (.Dispute .Initiate 0) = (.error .InvalidDispute, fin) :=
  dispute_chargeback_effects _ 0 100 (by decide) (by decide)

/-- Counterexample to Claim C7 as stated: the duplicate-id check runs
before the frozen check, so a Withdrawal on a frozen account whose id is
already in history fails with `DuplicateTransactionId`, not
`AccountFrozen`.  The frozen account is reached by a real run: deposit
100 under id 0, deposit 50 under id 1, dispute and charge back id 0. -/
theorem frozen_withdrawal_counterexample :
    runTxs Account.default
        [Transaction.deposit 0 100, Transaction.deposit 1 50,
         .Dispute .Initiate 0, .Dispute .Chargeback 0]
      = ⟨50, 0, true, [(1, ⟨.Deposit, 50⟩)], []⟩
      ∧ (Account.mk 50 0 true [(1, ⟨.Deposit, 50⟩)] []).transact
          (Transaction.withdrawal 1 10)
        = (.error (.DuplicateTransactionId 1), ⟨50, 0, true, [(1, ⟨.Deposit, 50⟩)], []⟩) := by
  decide

/-- Claim C7 (amended): a Withdrawal on a frozen account whose
transaction id is not already in history fails with `AccountFrozen` and
leaves the account (in particular `balance` and `held`) unchanged; a
Withdrawal reusing an id in history instead fails with
`DuplicateTransactionId`, also leaving the account unchanged. -/
theorem frozen_withdrawal_rejected (acc : Account) (t : TransactionId) (amt : Amount)
    (hf : acc.frozen = true)
    (hfresh : histContains acc.history t = false) :
    acc.transact (Transaction.withdrawal t amt) = (.error .AccountFrozen, acc) := by
  simp [Account.transact, Transaction.withdrawal, hfresh, hf]

/-- Witness for amended C7 at a concrete input: a fresh-id withdrawal on
a frozen account errors with `AccountFrozen` and changes nothing. -/
theorem frozen_withdrawal_rejected_witness :
    (Account.mk 50 0 true [(1, ⟨.Deposit, 50⟩)] []).transact (Transaction.withdrawal 2 10)
      = (.error .AccountFrozen, Account.mk 50 0 true [(1, ⟨.Deposit, 50⟩)] []) :=
  frozen_withdrawal_rejected _ 2 10 (by decide) (by decide)

/-- Replaying Deposits/Withdrawals with fresh, pairwise-distinct ids on
an unfrozen account changes `total` by the deposits applied minus the
withdrawals that succeeded. -/
theorem runTxs_total_changes :
    ∀ (txs : List Transaction) (acc : Account),
      acc.frozen = false →
      (∀ tx ∈ txs, isChange tx = true) →
      (txs.map Transaction.txId).Nodup →
      (∀ tx ∈ txs, histContains acc.history tx.txId = false) →
      (runTxs acc txs).total = acc.total + depositSum txs - okWithdrawalSum acc txs := by
  intro txs
  induction txs with
  | nil =>
    intro acc _ _ _ _
    simp [runTxs, depositSum, okWithdrawalSum]
  | cons tx rest ih =>
    intro acc hf hch hnd hfresh
    have hc : isChange tx = true := hch tx (by simp)
    cases tx with
    | Dispute k t => simp [isChange] at hc
    | Change t c =>
      have hfr : histContains acc.history t = false := hfresh (.Change t c) (by simp)
      have hmap : (Transaction.Change t c :: rest).map Transaction.txId
          = t :: rest.map Transaction.txId := by simp [Transaction.txId]
      rw [hmap] at hnd
      have hndh : t ∉ rest.map Transaction.txId := (List.nodup_cons.mp hnd).1
      have hndt : (rest.map Transaction.txId).Nodup := (List.nodup_cons.mp hnd).2
      have hcht : ∀ tx' ∈ rest, isChange tx' = true := fun tx' hm => hch tx' (by simp [hm])
      cases c with
      | mk kind amount =>
        cases kind with
        | Deposit =>
          have hstep : acc.transact (.Change t ⟨.Deposit, amount⟩)
              = (.ok (), ⟨acc.balance + amount, acc.held, acc.frozen,
                          histInsert acc.history t ⟨.Deposit, amount⟩, acc.disputed⟩) := by
            simp [Account.transact, hfr]
          have ih' := ih ⟨acc.balance + amount, acc.held, acc.frozen,
                          histInsert acc.history t ⟨.Deposit, amount⟩, acc.disputed⟩
            hf hcht hndt (by
              intro tx' hm
              have h1 := hfresh tx' (by simp [hm])
              have hne : ¬t = tx'.txId := by
                intro he
                exact hndh (he ▸ List.mem_map_of_mem Transaction.txId hm)
              simpa [histContains_insert, hne] using h1)
          simp only [runTxs, applyTx, hstep, okWithdrawalSum, depositSum]
          rw [ih']
          simp [Account.total]
          ring
        | Withdrawal =>
          by_cases hge : acc.balance ≥ amount
          · have hstep : acc.transact (.Change t ⟨.Withdrawal, amount⟩)
                = (.ok (), ⟨acc.balance - amount, acc.held, acc.frozen,
                            histInsert acc.history t ⟨.Withdrawal, amount⟩, acc.disputed⟩) := by
              simp [Account.transact, hfr, hf, hge]
            have ih' := ih ⟨acc.balance - amount, acc.held, acc.frozen,
                            histInsert acc.history t ⟨.Withdrawal, amount⟩, acc.disputed⟩
              hf hcht hndt (by
                intro tx' hm
                have h1 := hfresh tx' (by simp [hm])
                have hne : ¬t = tx'.txId := by
                  intro he
                  exact hndh (he ▸ List.mem_map_of_mem Transaction.txId hm)
                simpa [histContains_insert, hne] using h1)
            simp only [runTxs, applyTx, hstep, okWithdrawalSum, depositSum]
            rw [ih']
            simp [Account.total]
            ring
          · have hstep : acc.transact (.Change t ⟨.Withdrawal, amount⟩)
                = (.error (.InsufficentFunds acc.balance amount), acc) := by
              simp [Account.transact, hfr, hf, hge]
            have ih' := ih acc hf hcht hndt (fun tx' hm => hfresh tx' (by simp [hm]))
            simp only [runTxs, applyTx, hstep, okWithdrawalSum, depositSum]
            rw [ih']
            ring

/-- Claim C4: replaying any sequence of Deposit and Withdrawal
transactions with pairwise-distinct ids on a fresh account leaves
`total` equal to the sum of all deposit amounts minus the sum of the
amounts of exactly those withdrawals that succeeded (a rejected
withdrawal contributes zero). -/
theorem replay_total_conservation (txs : List Transaction)
    (hch : ∀ tx ∈ txs, isChange tx = true)
    (hids : (txs.map Transaction.txId).Nodup) :
    (runTxs Account.default txs).total
      = depositSum txs - okWithdrawalSum Account.default txs := by
  have h := runTxs_total_changes txs Account.default rfl hch hids
    (fun tx _ => rfl)
  simpa [Account.total, Account.default] using h

/-- Witness for C4 at a concrete input: deposit 100, withdraw 30
(succeeds), withdraw 200 (insufficient): total 70 = 100 − 30. -/
theorem replay_total_conservation_witness :
    (runTxs Account.default
        [Transaction.deposit 0 100, Transaction.withdrawal 1 30,
         Transaction.withdrawal 2 200]).total
      = depositSum
          [Transaction.deposit 0 100, Transaction.withdrawal 1 30,
           Transaction.withdrawal 2 200]
        - okWithdrawalSum Account.default
            [Transaction.deposit 0 100, Transaction.withdrawal 1 30,
             Transaction.withdrawal 2 200] :=
  replay_total_conservation _ (by decide) (by decide)

/-- Account states reachable from the default account by successful
`Account::transact` calls. -/
inductive Reachable : Account → Prop
  | init : Reachable Account.default
  | step {a b : Account} {tx : Transaction} :
      Reachable a → a.transact tx = (.ok (), b) → Reachable b

/-- Every disputed id maps to a Deposit in the history. -/
def DisputedAreDeposits (acc : Account) : Prop :=
  ∀ t ∈ acc.disputed, ∃ a : Amount, histGet acc.history t = some ⟨.Deposit, a⟩

/-- Membership after set insertion. -/
theorem mem_setInsert (s : List TransactionId) (t t' : TransactionId)
    (h : t' ∈ setInsert s t) : t' = t ∨ t' ∈ s := by
  unfold setInsert at h
  by_cases hm : t ∈ s
  · simp [hm] at h
    exact Or.inr h
  · simp [hm] at h
    exact h

/-- Membership after set removal. -/
theorem mem_setRemove (s : List TransactionId) (t t' : TransactionId)
    (h : t' ∈ setRemove s t) : t' ∈ s ∧ t' ≠ t := by
  unfold setRemove at h
  have := List.mem_filter.mp h
  refine ⟨this.1, ?_⟩
  simpa using this.2

/-- One successful transaction preserves the disputed-ids-are-deposits
invariant. -/
theorem disputedAreDeposits_step (a b : Account) (tx : Transaction)
    (hinv : DisputedAreDeposits a) (h : a.transact tx = (.ok (), b)) :
    DisputedAreDeposits b := by
  cases tx with
  | Change tx_id change =>
    cases change with
    | mk kind amount =>
      have hfr : histContains a.history tx_id = false := by
        by_contra hc
        have hc' : histContains a.history tx_id = true := by
          revert hc
          cases histContains a.history tx_id <;> simp
        simp [Account.transact, hc'] at h
      cases kind with
      | Deposit =>
        simp only [Account.transact, hfr, Bool.false_eq_true, if_false] at h
        rw [Prod.mk.injEq] at h
        obtain ⟨-, rfl⟩ := h
        intro t ht
        obtain ⟨x, hx⟩ := hinv t ht
        refine ⟨x, ?_⟩
        have hne : ¬tx_id = t := by
          intro he
          rw [← he] at hx
          simp [histContains, hx] at hfr
        simpa [histGet_insert, hne] using hx
      | Withdrawal =>
        by_cases hfz : a.frozen
        · simp [Account.transact, hfr, hfz] at h
        · by_cases hge : a.balance ≥ amount
          · simp only [Account.transact, hfr, Bool.false_eq_true, if_false, hfz, hge,
              if_true] at h
            rw [Prod.mk.injEq] at h
            obtain ⟨-, rfl⟩ := h
            intro t ht
            obtain ⟨x, hx⟩ := hinv t ht
            refine ⟨x, ?_⟩
            have hne : ¬tx_id = t := by
              intro he
              rw [← he] at hx
              simp [histContains, hx] at hfr
            simpa [histGet_insert, hne] using hx
          · simp [Account.transact, hfr, hfz, hge] at h
  | Dispute kind tx_id =>
    cases kind with
    | Initiate =>
      rcases hg : histGet a.history tx_id with - | c
      · simp [Account.transact, hg] at h
      · rcases c with ⟨ck, ca⟩
        cases ck with
        | Withdrawal => simp [Account.transact, hg] at h
        | Deposit =>
          simp only [Account.transact, hg] at h
          rw [Prod.mk.injEq] at h
          obtain ⟨-, rfl⟩ := h
          intro t ht
          rcases mem_setInsert _ _ _ ht with rfl | hmem
          · exact ⟨ca, hg⟩
          · exact hinv t hmem
    | Resolve =>
      by_cases hd : setContains a.disputed tx_id
      · simp only [Account.transact, hd, if_true] at h
        rcases hg : histGet a.history tx_id with - | c
        · rw [hg] at h
          rw [Prod.mk.injEq] at h
          obtain ⟨-, rfl⟩ := h
          intro t ht
          exact hinv t (mem_setRemove _ _ _ ht).1
        · rcases c with ⟨ck, ca⟩
          cases ck with
          | Deposit =>
            rw [hg] at h
            rw [Prod.mk.injEq] at h
            obtain ⟨-, rfl⟩ := h
            intro t ht
            exact hinv t (mem_setRemove _ _ _ ht).1
          | Withdrawal =>
            rw [hg] at h
            rw [Prod.mk.injEq] at h
            obtain ⟨-, rfl⟩ := h
            intro t ht
            exact hinv t (mem_setRemove _ _ _ ht).1
      · simp [Account.transact, hd] at h
    | Chargeback =>
      by_cases hd : setContains a.disputed tx_id
      · simp only [Account.transact, hd, if_true] at h
        rcases hg : histGet a.history tx_id with - | c
        · rw [hg] at h
          rw [Prod.mk.injEq] at h
          obtain ⟨-, rfl⟩ := h
          intro t ht
          exact hinv t (mem_setRemove _ _ _ ht).1
        · rcases c with ⟨ck, ca⟩
          cases ck with
          | Deposit =>
            rw [hg] at h
            rw [Prod.mk.injEq] at h
            obtain ⟨-, rfl⟩ := h
            intro t ht
            obtain ⟨hmem, hne⟩ := mem_setRemove _ _ _ ht
            obtain ⟨x, hx⟩ := hinv t hmem
            exact ⟨x, by simpa [histGet_remove_ne _ _ _ hne] using hx⟩
          | Withdrawal =>
            rw [hg] at h
            rw [Prod.mk.injEq] at h
            obtain ⟨-, rfl⟩ := h
            intro t ht
            exact hinv t (mem_setRemove _ _ _ ht).1
      · simp [Account.transact, hd] at h

/-- All reachable accounts satisfy the invariant. -/
theorem reachable_disputedAreDeposits (acc : Account) (h : Reachable acc) :
    DisputedAreDeposits acc := by
  induction h with
  | init => intro t ht; simp [Account.default] at ht
  | step hr hs ih => exact disputedAreDeposits_step _ _ _ ih hs

/-- Amount recorded in the history under an id, zero when absent. -/
def histAmt (h : History) (t : TransactionId) : Int :=
  match histGet h t with
  | some c => c.amount
  | none => 0

/-- Sum of the history amounts of a list of ids. -/
def disputedSum (h : History) : List TransactionId → Int
  | [] => 0
  | t :: rest => histAmt h t + disputedSum h rest

/-- Every amount recorded in the history is non-negative. -/
def histAmountsNonneg (h : History) : Prop :=
  ∀ p ∈ h, 0 ≤ p.2.amount

/-- A successful lookup comes from an entry of the list. -/
theorem histGet_mem (h : History) (t : TransactionId) (c : BalanceChange)
    (hg : histGet h t = some c) : (t, c) ∈ h := by
  induction h with
  | nil => simp [histGet] at hg
  | cons p rest ih =>
    rcases p with ⟨k, v⟩
    by_cases hk : k = t
    · subst hk
      have hv : v = c := by simpa [histGet] using hg
      subst hv
      exact List.mem_cons_self _ _
    · simp only [histGet, hk, if_false] at hg
      exact List.mem_cons_of_mem _ (ih hg)

/-- Inserting a fresh id does not change the sum over other ids. -/
theorem disputedSum_insert (h : History) (d : List TransactionId) (t : TransactionId)
    (c : BalanceChange) (hfresh : ∀ x ∈ d, x ≠ t) :
    disputedSum (histInsert h t c) d = disputedSum h d := by
  induction d with
  | nil => rfl
  | cons x rest ih =>
    have hx : x ≠ t := hfresh x (by simp)
    have hne : ¬t = x := fun he => hx he.symm
    simp only [disputedSum, histAmt, histGet_insert, hne, if_false]
    rw [ih (fun y hy => hfresh y (by simp [hy]))]

/-- Removing one id from the history does not change the sum over ids
different from it. -/
theorem disputedSum_histRemove (h : History) (d : List TransactionId) (t : TransactionId)
    (hd : ∀ x ∈ d, x ≠ t) :
    disputedSum (histRemove h t) d = disputedSum h d := by
  induction d with
  | nil => rfl
  | cons x rest ih =>
    have hx : x ≠ t := hd x (by simp)
    simp only [disputedSum, histAmt, histGet_remove_ne h t x hx]
    rw [ih (fun y hy => hd y (by simp [hy]))]

/-- Removing a present id from a duplicate-free id list subtracts exactly
its history amount from the sum. -/
theorem disputedSum_setRemove (h : History) (d : List TransactionId) (t : TransactionId)
    (hnd : d.Nodup) (hm : t ∈ d) :
    disputedSum h (setRemove d t) = disputedSum h d - histAmt h t := by
  induction d with
  | nil => simp at hm
  | cons x rest ih =>
    rcases List.nodup_cons.mp hnd with ⟨hx, hrest⟩
    by_cases he : x = t
    · subst he
      have hr : setRemove (x :: rest) x = rest := by
        have h1 := setRemove_not_mem rest x hx
        simp only [setRemove, List.filter_cons] at h1 ⊢
        simpa using h1
      rw [hr]
      simp only [disputedSum]
      omega
    · have hm' : t ∈ rest := by
        rcases List.mem_cons.mp hm with h1 | h1
        · exact absurd h1.symm he
        · exact h1
      have hsr : setRemove (x :: rest) t = x :: setRemove rest t := by
        simp [setRemove, List.filter_cons, he]
      rw [hsr]
      simp only [disputedSum, ih hrest hm']
      ring

/-- When every id of the list maps to a Deposit with non-negative
amount, the sum is non-negative. -/
theorem disputedSum_nonneg (h : History) (d : List TransactionId)
    (hdep : ∀ x ∈ d, ∃ a : Amount, histGet h x = some ⟨.Deposit, a⟩)
    (hnn : histAmountsNonneg h) :
    0 ≤ disputedSum h d := by
  induction d with
  | nil => simp [disputedSum]
  | cons x rest ih =>
    obtain ⟨a, ha⟩ := hdep x (by simp)
    have hmem := histGet_mem h x _ ha
    have h0 : 0 ≤ a := by simpa using hnn _ hmem
    have hA : histAmt h x = a := by simp [histAmt, ha]
    have hR := ih (fun y hy => hdep y (by simp [hy]))
    simp only [disputedSum, hA]
    exact add_nonneg h0 hR

/-- Modelled from the spec: the §4.2 transition-table preconditions
(fresh id for Deposit/Withdrawal, unfrozen account and sufficient funds
for Withdrawal, a not-yet-disputed Deposit for Dispute, a disputed id for
Resolve/Chargeback), together with the §3 data-model requirement that
Deposit/Withdrawal amounts are non-negative.  This is the spec's notion
of a valid transition, used to state claims that quantify over "valid"
transactions. -/
def specValid (acc : Account) : Transaction → Bool
  | .Change t c =>
      !histContains acc.history t && decide (0 ≤ c.amount)
        && (match c.kind with
            | .Deposit => true
            | .Withdrawal => !acc.frozen && decide (c.amount ≤ acc.balance))
  | .Dispute .Initiate t =>
      (match histGet acc.history t with
        | some c => decide (c.kind = .Deposit)
        | none => false) && !setContains acc.disputed t
  | .Dispute .Resolve t => setContains acc.disputed t
  | .Dispute .Chargeback t => setContains acc.disputed t

/-- Account states reachable from the default account by transitions
that are valid in the spec's sense (and hence succeed). -/
inductive ReachableValid : Account → Prop
  | init : ReachableValid Account.default
  | step {a b : Account} {tx : Transaction} :
      ReachableValid a → specValid a tx = true →
      a.transact tx = (.ok (), b) → ReachableValid b

/-- Invariant maintained by spec-valid transitions: disputed ids map to
deposits, recorded amounts are non-negative, the disputed set is
duplicate-free, and `held` equals the sum of the disputed amounts. -/
def ValidInv (acc : Account) : Prop :=
  DisputedAreDeposits acc ∧ histAmountsNonneg acc.history ∧ acc.disputed.Nodup
    ∧ acc.held = disputedSum acc.history acc.disputed

/-- A spec-valid transaction always succeeds. -/
theorem specValid_ok (acc : Account) (tx : Transaction) (hv : specValid acc tx = true) :
    ∃ acc' : Account, acc.transact tx = (.ok (), acc') := by
  suffices hfst : (acc.transact tx).1 = Except.ok () by
    exact ⟨(acc.transact tx).2, by rw [← hfst]⟩
  cases tx with
  | Change t c =>
    rcases c with ⟨ck, ca⟩
    cases ck with
    | Deposit =>
      simp only [specValid, Bool.and_eq_true, Bool.not_eq_true',
        decide_eq_true_eq] at hv
      simp [Account.transact, hv.1.1]
    | Withdrawal =>
      simp only [specValid, Bool.and_eq_true, Bool.not_eq_true',
        decide_eq_true_eq] at hv
      obtain ⟨⟨h1, -⟩, h3, h4⟩ := hv
      simp [Account.transact, h1, h3, ge_iff_le, h4]
  | Dispute k t =>
    cases k with
    | Initiate =>
      rcases hg : histGet acc.history t with - | c
      · simp [specValid, hg] at hv
      · rcases c with ⟨ck, ca⟩
        cases ck with
        | Deposit => simp [Account.transact, hg]
        | Withdrawal => simp [specValid, hg] at hv
    | Resolve =>
      have hc : setContains acc.disputed t = true := by simpa [specValid] using hv
      rcases hg : histGet acc.history t with - | c
      · simp [Account.transact, hc, hg]
      · rcases c with ⟨ck, ca⟩
        cases ck <;> simp [Account.transact, hc, hg]
    | Chargeback =>
      have hc : setContains acc.disputed t = true := by simpa [specValid] using hv
      rcases hg : histGet acc.history t with - | c
      · simp [Account.transact, hc, hg]
      · rcases c with ⟨ck, ca⟩
        cases ck <;> simp [Account.transact, hc, hg]

/-- One spec-valid successful transaction preserves `ValidInv`. -/
theorem validInv_step (a b : Account) (tx : Transaction)
    (hv : specValid a tx = true) (h : a.transact tx = (.ok (), b))
    (hinv : ValidInv a) : ValidInv b := by
  obtain ⟨hdep, hnn, hnd, hsum⟩ := hinv
  have hdep' : DisputedAreDeposits b := disputedAreDeposits_step a b tx hdep h
  cases tx with
  | Change t c =>
    rcases c with ⟨ck, ca⟩
    cases ck with
    | Deposit =>
      simp only [specValid, Bool.and_eq_true, Bool.not_eq_true',
        decide_eq_true_eq] at hv
      have hfr : histContains a.history t = false := hv.1.1
      have hca : 0 ≤ ca := hv.1.2
      have hfreshd : ∀ x ∈ a.disputed, x ≠ t := by
        intro x hx he
        obtain ⟨w, hw⟩ := hdep x hx
        rw [he] at hw
        simp [histContains, hw] at hfr
      have hstep : a.transact (.Change t ⟨.Deposit, ca⟩)
          = (.ok (), ⟨a.balance + ca, a.held, a.frozen,
                      histInsert a.history t ⟨.Deposit, ca⟩, a.disputed⟩) := by
        simp [Account.transact, hfr]
      rw [hstep, Prod.mk.injEq] at h
      obtain ⟨-, hb⟩ := h
      subst hb
      refine ⟨hdep', ?_, hnd, ?_⟩
      · intro p hp
        rcases List.mem_cons.mp hp with rfl | hp'
        · exact hca
        · exact hnn p hp'
      · rw [show (histInsert a.history t ⟨ChangeKind.Deposit, ca⟩ : History)
            = histInsert a.history t ⟨.Deposit, ca⟩ from rfl]
        rw [disputedSum_insert a.history a.disputed t _ hfreshd]
        exact hsum
    | Withdrawal =>
      simp only [specValid, Bool.and_eq_true, Bool.not_eq_true',
        decide_eq_true_eq] at hv
      obtain ⟨⟨hfr, hca⟩, hfz, hle⟩ := hv
      have hfreshd : ∀ x ∈ a.disputed, x ≠ t := by
        intro x hx he
        obtain ⟨w, hw⟩ := hdep x hx
        rw [he] at hw
        simp [histContains, hw] at hfr
      have hstep : a.transact (.Change t ⟨.Withdrawal, ca⟩)
          = (.ok (), ⟨a.balance - ca, a.held, a.frozen,
                      histInsert a.history t ⟨.Withdrawal, ca⟩, a.disputed⟩) := by
        simp [Account.transact, hfr, hfz, ge_iff_le, hle]
      rw [hstep, Prod.mk.injEq] at h
      obtain ⟨-, hb⟩ := h
      subst hb
      refine ⟨hdep', ?_, hnd, ?_⟩
      · intro p hp
        rcases List.mem_cons.mp hp with rfl | hp'
        · exact hca
        · exact hnn p hp'
      · rw [disputedSum_insert a.history a.disputed t _ hfreshd]
        exact hsum
  | Dispute k t =>
    cases k with
    | Initiate =>
      rcases hg : histGet a.history t with - | c
      · simp [specValid, hg] at hv
      · rcases c with ⟨ck, ca⟩
        cases ck with
        | Withdrawal => simp [specValid, hg] at hv
        | Deposit =>
          have hnm : t ∉ a.disputed := by
            simp [specValid, hg, setContains] at hv
            exact hv
          have hstep : a.transact (.Dispute .Initiate t)
              = (.ok (), ⟨a.balance - ca, a.held + ca, a.frozen, a.history,
                          t :: a.disputed⟩) := by
            simp [Account.transact, hg, setInsert, hnm]
          rw [hstep, Prod.mk.injEq] at h
          obtain ⟨-, hb⟩ := h
          subst hb
          refine ⟨hdep', hnn, List.nodup_cons.mpr ⟨hnm, hnd⟩, ?_⟩
          simp only [disputedSum, histAmt, hg, hsum]
          ring
    | Resolve =>
      have hc : setContains a.disputed t = true := by simpa [specValid] using hv
      have hm : t ∈ a.disputed := by simpa [setContains] using hc
      obtain ⟨ca, hg⟩ := hdep t hm
      have hstep : a.transact (.Dispute .Resolve t)
          = (.ok (), ⟨a.balance + ca, a.held - ca, a.frozen, a.history,
                      setRemove a.disputed t⟩) := by
        simp [Account.transact, hc, hg]
      rw [hstep, Prod.mk.injEq] at h
      obtain ⟨-, hb⟩ := h
      subst hb
      refine ⟨hdep', hnn, hnd.filter _, ?_⟩
      rw [disputedSum_setRemove a.history a.disputed t hnd hm]
      have hA : histAmt a.history t = ca := by simp [histAmt, hg]
      rw [hA, hsum]
    | Chargeback =>
      have hc : setContains a.disputed t = true := by simpa [specValid] using hv
      have hm : t ∈ a.disputed := by simpa [setContains] using hc
      obtain ⟨ca, hg⟩ := hdep t hm
      have hstep : a.transact (.Dispute .Chargeback t)
          = (.ok (), ⟨a.balance, a.held - ca, true, histRemove a.history t,
                      setRemove a.disputed t⟩) := by
        simp [Account.transact, hc, hg]
      rw [hstep, Prod.mk.injEq] at h
      obtain ⟨-, hb⟩ := h
      subst hb
      refine ⟨hdep', ?_, hnd.filter _, ?_⟩
      · intro p hp
        exact hnn p (List.mem_of_mem_filter hp)
      · have ht' : ∀ x ∈ setRemove a.disputed t, x ≠ t :=
          fun x hx => (mem_setRemove _ _ _ hx).2
        rw [disputedSum_histRemove _ _ t ht',
          disputedSum_setRemove a.history a.disputed t hnd hm]
        have hA : histAmt a.history t = ca := by simp [histAmt, hg]
        rw [hA, hsum]

/-- Every spec-valid-reachable account satisfies `ValidInv`. -/
theorem reachableValid_inv (acc : Account) (hr : ReachableValid acc) : ValidInv acc := by
  induction hr with
  | init =>
    refine ⟨?_, ?_, ?_, ?_⟩
    · intro t ht; simp [Account.default] at ht
    · intro p hp; simp [Account.default] at hp
    · simp [Account.default]
    · simp [Account.default, disputedSum]
  | step hr hv hok ih => exact validInv_step _ _ _ hv hok ih

/-- Counterexample to Claim C3 as stated: a Dispute whose spec
preconditions hold (the spec's §4.2 transition table: id 0 holds a
Deposit in history and is not disputed) drives the available balance
negative when the deposited funds were already withdrawn.  Every
transition in the run is spec-valid and succeeds. -/
theorem valid_dispute_negative_balance_counterexample :
    specValid Account.default (Transaction.deposit 0 100) = true
      ∧ Account.default.transact (Transaction.deposit 0 100)
        = (.ok (), ⟨100, 0, false, [(0, ⟨.Deposit, 100⟩)], []⟩)
      ∧ specValid (Account.mk 100 0 false [(0, ⟨.Deposit, 100⟩)] [])
          (Transaction.withdrawal 1 100) = true
      ∧ (Account.mk 100 0 false [(0, ⟨.Deposit, 100⟩)] []).transact
          (Transaction.withdrawal 1 100)
        = (.ok (), ⟨0, 0, false, [(1, ⟨.Withdrawal, 100⟩), (0, ⟨.Deposit, 100⟩)], []⟩)
      ∧ specValid (Account.mk 0 0 false [(1, ⟨.Withdrawal, 100⟩), (0, ⟨.Deposit, 100⟩)] [])
          (.Dispute .Initiate 0) = true
      ∧ (Account.mk 0 0 false [(1, ⟨.Withdrawal, 100⟩), (0, ⟨.Deposit, 100⟩)] []).transact
          (.Dispute .Initiate 0)
        = (.ok (), ⟨-100, 100, false,
                    [(1, ⟨.Withdrawal, 100⟩), (0, ⟨.Deposit, 100⟩)], [0]⟩)
      ∧ ((-100 : Amount) < 0) := by
  decide

/-- Claim C3 (amended): for every account reachable from the default
account by spec-valid transitions (the §4.2 preconditions, with the §3
non-negative amounts) and every further spec-valid transaction, the
transaction succeeds and the resulting held balance is non-negative.
The available balance, by contrast, can become negative: a valid Dispute
of a deposit whose funds were already withdrawn drives it below zero. -/
theorem valid_transition_held_nonneg (acc : Account) (hr : ReachableValid acc)
    (tx : Transaction) (hv : specValid acc tx = true) :
    ∃ acc' : Account, acc.transact tx = (.ok (), acc') ∧ 0 ≤ acc'.held := by
  obtain ⟨acc', hok⟩ := specValid_ok acc tx hv
  have hr' : ReachableValid acc' := .step hr hv hok
  obtain ⟨hdep, hnn, -, hsum⟩ := reachableValid_inv acc' hr'
  exact ⟨acc', hok, by rw [hsum]; exact disputedSum_nonneg _ _ hdep hnn⟩

/-- Witness for amended C3 at a concrete input: a first deposit on the
fresh account is spec-valid, succeeds, and leaves held non-negative. -/
theorem valid_transition_held_nonneg_witness :
    ∃ acc' : Account,
      Account.default.transact (Transaction.deposit 0 100) = (.ok (), acc')
        ∧ 0 ≤ acc'.held :=
  valid_transition_held_nonneg Account.default ReachableValid.init
    (Transaction.deposit 0 100) (by decide)

/-- Claim C10: in every account reachable from the default account by
`Account::transact` calls, each disputed id maps to a Deposit in the
history; consequently the inner history lookups in the Resolve and
Chargeback branches cannot fail once the disputed-set removal succeeded,
and a Resolve or Chargeback of a disputed id succeeds and performs its
balance effect. -/
theorem reachable_resolve_chargeback_effects (acc : Account) (hr : Reachable acc) :
    ∀ t ∈ acc.disputed, ∃ a : Amount,
      histGet acc.history t = some ⟨.Deposit, a⟩
        ∧ acc.transact (.Dispute .Resolve t)
            = (.ok (), ⟨acc.balance + a, acc.held - a, acc.frozen, acc.history,
                        setRemove acc.disputed t⟩)
        ∧ acc.transact (.Dispute .Chargeback t)
            = (.ok (), ⟨acc.balance, acc.held - a, true, histRemove acc.history t,
                        setRemove acc.disputed t⟩) := by
  intro t ht
  obtain ⟨a, ha⟩ := reachable_disputedAreDeposits acc hr t ht
  have hd : setContains acc.disputed t = true := by simpa [setContains] using ht
  exact ⟨a, ha, by simp [Account.transact, hd, ha], by simp [Account.transact, hd, ha]⟩

/-- Witness for C10 at a concrete input: the reachable account obtained
by depositing 100 under id 0 and disputing it has id 0 disputed, and both
Resolve(0) and Chargeback(0) succeed with their balance effects. -/
theorem reachable_resolve_chargeback_effects_witness :
    ∃ a : Amount,
      histGet [(0, ⟨.Deposit, 100⟩)] 0 = some ⟨.Deposit, a⟩
        ∧ (Account.mk 0 100 false [(0, ⟨.Deposit, 100⟩)] [0]).transact (.Dispute .Resolve 0)
            = (.ok (), ⟨0 + a, 100 - a, false, [(0, ⟨.Deposit, 100⟩)], setRemove [0] 0⟩)
        ∧ (Account.mk 0 100 false [(0, ⟨.Deposit, 100⟩)] [0]).transact (.Dispute .Chargeback 0)
            = (.ok (), ⟨0, 100 - a, true, histRemove [(0, ⟨.Deposit, 100⟩)] 0,
                        setRemove [0] 0⟩) :=
  reachable_resolve_chargeback_effects (Account.mk 0 100 false [(0, ⟨.Deposit, 100⟩)] [0])
    (@Reachable.step (Account.mk 100 0 false [(0, ⟨.Deposit, 100⟩)] [])
      (Account.mk 0 100 false [(0, ⟨.Deposit, 100⟩)] [0])
      (.Dispute .Initiate 0)
      (@Reachable.step Account.default (Account.mk 100 0 false [(0, ⟨.Deposit, 100⟩)] [])
        (Transaction.deposit 0 100) Reachable.init (by decide))
      (by decide))
    0 (by decide)
